import Mathlib

/-!
# Verification of the interpreter screen-translation pipeline

A shallow embedding, in Lean 4, of the core of `bquenin/interpreter`
(`cmd/interpreter/main.go` and the word-wrapping `App.Draw` variant):

* the Google-Vision recognition data model (`visionpb.TextAnnotation`:
  pages / blocks / paragraphs / words / symbols) and the confidence filter
  `filterTextByConfidence`;
* the body of the background pipeline cycle launched by `App.Update`
  (screenshot → annotate → dedup against `lastText` → translate → publish),
  with the external collaborators (capture, recognizer, translator)
  represented by their results;
* the refresh scheduling performed by `App.Update` on every render tick;
* the window-drag handler at the top of `App.Update`;
* the greedy word-wrap performed by the `App.Draw` variant.

Machine floats (`float32` confidences) are embedded as rationals: all
comparisons performed by the code on the values appearing here coincide
with the rational comparisons.  Character strings are Lean `String`s.
-/

namespace Interpreter

/-- One atomic text unit of the recognizer output (`visionpb.Symbol`). -/
structure Symbol where
  text : String
deriving DecidableEq

/-- A recognized word: a confidence score and its symbols (`visionpb.Word`). -/
structure Word where
  confidence : ℚ
  symbols : List Symbol
deriving DecidableEq

/-- A paragraph of recognized words (`visionpb.Paragraph`). -/
structure Paragraph where
  words : List Word
deriving DecidableEq

/-- A block of paragraphs (`visionpb.Block`). -/
structure Block where
  paragraphs : List Paragraph
deriving DecidableEq

/-- A page of blocks (`visionpb.Page`). -/
structure Page where
  blocks : List Block
deriving DecidableEq

/-- The hierarchical recognition result (`visionpb.TextAnnotation`). -/
structure RecognitionResult where
  pages : List Page
deriving DecidableEq

/-- `filterTextByConfidence` from `cmd/interpreter/main.go` (lines 50–67):
nested loops over pages, blocks, paragraphs and words accumulating into a
`bytes.Buffer`; a word whose confidence is `< threshold` is skipped
(`continue`), otherwise all of its symbols' text is appended. -/
def filterTextByConfidence (result : RecognitionResult) (threshold : ℚ) : String :=
  result.pages.foldl (fun buffer page =>
    page.blocks.foldl (fun buffer block =>
      block.paragraphs.foldl (fun buffer paragraph =>
        paragraph.words.foldl (fun buffer word =>
          if word.confidence < threshold then buffer
          else word.symbols.foldl (fun buffer s => buffer ++ s.text) buffer)
          buffer)
        buffer)
      buffer)
    ""

/-- Concatenation, in order and with no separator, of the strings produced
by `g` on the elements of a list. -/
def concatMap {α : Type} (g : α → String) : List α → String
  | [] => ""
  | x :: xs => g x ++ concatMap g xs

/-- The text of one word: its symbols' text concatenated in order. -/
def wordText (w : Word) : String :=
  concatMap Symbol.text w.symbols

/-- All words of a recognition result in document order:
pages, then blocks, then paragraphs, then words. -/
def documentWords (result : RecognitionResult) : List Word :=
  result.pages.flatMap fun page =>
    page.blocks.flatMap fun block =>
      block.paragraphs.flatMap fun paragraph => paragraph.words

/-- Scenario A of the specification: a recognition result with three words
of confidences 0.95, 0.40 and 0.99. -/
def scenarioA : RecognitionResult :=
  ⟨[⟨[⟨[⟨[⟨0.95, [⟨"Hel"⟩, ⟨"lo"⟩]⟩,
           ⟨0.40, [⟨"xx"⟩]⟩,
           ⟨0.99, [⟨"wor"⟩, ⟨"ld"⟩]⟩]⟩]⟩]⟩]⟩

/-- A recognition result with a single word of full confidence 1. -/
def oneWordResult : RecognitionResult :=
  ⟨[⟨[⟨[⟨[⟨1, [⟨"a"⟩]⟩]⟩]⟩]⟩]⟩

/-- The mutable pipeline state of `App` touched by a background cycle:
`lastText` (the last text sent to the translator) and `subs` (the subtitle
the render tick displays). -/
structure AppState where
  lastText : String
  subs : String
deriving DecidableEq

/-- Outcome of one background pipeline cycle.  `fatal` models
`log.Fatal().Err(err).Send()`, which terminates the whole process
(zerolog calls `os.Exit(1)`), render loop included.  `done st n` is normal
completion with new app state `st` after `n` calls to the external
translator. -/
inductive CycleResult where
  | fatal : CycleResult
  | done : AppState → Nat → CycleResult
deriving DecidableEq

/-- The body of the goroutine launched by `App.Update`
(`cmd/interpreter/main.go` lines 121–158).  External collaborators appear
as their results: `screenshotResult` for `a.screenshot`, `saveResult` for
the debug-mode screenshot save, `extractResult` for `a.annotate` (the
extracted text, or a capture-encoding/recognizer error), and `translator`
for `a.translator.Translate`.  Every error is passed to `log.Fatal`; a
text equal to `lastText` returns early; an empty text clears `subs` and
returns early; otherwise the translation is published and `lastText`
updated. -/
def runCycle (st : AppState) (debug : Bool)
    (screenshotResult : Except String Unit)
    (saveResult : Except String Unit)
    (extractResult : Except String String)
    (translator : String → Except String String) : CycleResult :=
  match screenshotResult with
  | .error _ => .fatal
  | .ok _ =>
    match (if debug then saveResult else .ok ()) with
    | .error _ => .fatal
    | .ok _ =>
      match extractResult with
      | .error _ => .fatal
      | .ok text =>
        if text = st.lastText then .done st 0
        else if text = "" then .done { st with subs := "" } 0
        else
          match translator text with
          | .error _ => .fatal
          | .ok translation => .done { lastText := text, subs := translation } 1

/-- Scheduling state of `App.Update`: `lastUpdate` is the time of the last
due tick; `running` records the completion times of every pipeline cycle
launched so far (a cycle launched at `now` with duration `d` runs until
`now + d`). -/
structure SchedState where
  lastUpdate : ℤ
  running : List ℤ
deriving DecidableEq

/-- The refresh check of `App.Update` (lines 115–121) at time `now`: if
`now` is not after `lastUpdate + refreshRate` nothing happens; otherwise
`lastUpdate` is set to `now` and a new background cycle is launched
unconditionally (`go func(){...}()`), with no check of whether a previous
cycle is still running. -/
def updateTick (refreshRate cycleDuration now : ℤ) (st : SchedState) : SchedState :=
  if now > st.lastUpdate + refreshRate then
    { lastUpdate := now, running := (now + cycleDuration) :: st.running }
  else st

/-- Number of pipeline cycles still running at time `t`. -/
def inFlight (st : SchedState) (t : ℤ) : ℕ :=
  (st.running.filter fun c => t < c).length

/-- The move-window handler at the top of `App.Update` (lines 108–113).
`ebiten.CursorPosition` returns the cursor in window-local coordinates,
i.e. the cursor's screen position minus the window position; the handler
sets the window position to `(x+cx, y+cy)` where `(x, y)` is the local
cursor and `(cx, cy)` the current window position.  `cursor` is the
cursor's position on screen. -/
def moveWindowHandler (pressed : Bool) (cursor window : ℤ × ℤ) : ℤ × ℤ :=
  if pressed then
    let x := cursor.1 - window.1
    let y := cursor.2 - window.2
    (x + window.1, y + window.2)
  else window

/-- `strings.Fields`: the whitespace-delimited words of a string (runs of
whitespace separate words; no empty words are produced). -/
def fields (s : String) : List String :=
  ((List.splitOnP (fun c => c.isWhitespace) s.data).filter fun cs => cs ≠ []).map
    fun cs => ⟨cs⟩

/-- One iteration of the word-wrap loop of the `App.Draw` variant
(`src/unnamed/part_003` lines 424–434): the accumulator holds the current
`line` buffer and the list of lines already flushed into `subtitles`.  The
width of `line.String()+word` is measured; if it exceeds `width` the
current line is flushed and a fresh line started; then the word and a
trailing space are appended to the line. -/
def wrapStep (measure : String → ℕ) (width : ℕ)
    (acc : String × List String) (word : String) : String × List String :=
  if measure (acc.1 ++ word) > width then
    (word ++ " ", acc.2 ++ [acc.1])
  else ((acc.1 ++ word) ++ " ", acc.2)

/-- The word-wrap of the `App.Draw` variant: fold `wrapStep` over the
whitespace-delimited words of the subtitle, then flush the final line.
The resulting list is exactly the lines of the `subtitles` buffer (the
code joins them with `"\n"`).  `measure` abstracts the external
`text.BoundString(font, ·).Dx()`. -/
def wrapLines (measure : String → ℕ) (width : ℕ) (words : List String) : List String :=
  let acc := words.foldl (wrapStep measure width) ("", [])
  acc.2 ++ [acc.1]

/-- A concrete width measure satisfying the properties of
`text.BoundString` used in the word-wrap proofs: the number of non-space
characters (trailing spaces carry no glyph and do not widen the bound). -/
def measureNoSpace (s : String) : ℕ :=
  (s.data.filter fun c => c ≠ ' ').length

/-- Modelled from the spec: the repository has no fuzzy matcher (the cycle
compares texts with `==` only); the specification describes similarity as
a "normalized edit-distance ratio" — here 1 minus the Levenshtein distance
divided by the longer length. -/
def similarity (a b : String) : ℚ :=
  let n := max a.length b.length
  if n = 0 then 1
  else 1 - ((levenshtein Levenshtein.defaultCost a.data b.data : ℕ) : ℚ) / (n : ℚ)

theorem foldl_append_acc {α : Type} (g : α → String) (l : List α) (acc : String) :
    l.foldl (fun b x => b ++ g x) acc = acc ++ concatMap g l := by
  induction l generalizing acc with
  | nil => simp [concatMap]
  | cons x xs ih => simp [concatMap, ih, String.append_assoc]

theorem concatMap_append {α : Type} (g : α → String) (l₁ l₂ : List α) :
    concatMap g (l₁ ++ l₂) = concatMap g l₁ ++ concatMap g l₂ := by
  induction l₁ with
  | nil => simp [concatMap]
  | cons x xs ih => simp [concatMap, ih, String.append_assoc]

theorem concatMap_flatMap {α β : Type} (g : β → String) (h : α → List β) (l : List α) :
    concatMap g (l.flatMap h) = concatMap (fun x => concatMap g (h x)) l := by
  induction l with
  | nil => simp [concatMap]
  | cons x xs ih => simp [concatMap, concatMap_append, ih]

theorem words_foldl (t : ℚ) (ws : List Word) (acc : String) :
    ws.foldl (fun buffer word =>
        if word.confidence < t then buffer
        else word.symbols.foldl (fun buffer s => buffer ++ s.text) buffer) acc
      = acc ++ concatMap wordText (ws.filter fun w => t ≤ w.confidence) := by
  induction ws generalizing acc with
  | nil => simp [concatMap]
  | cons w ws ih =>
    rw [List.foldl_cons]
    by_cases h : w.confidence < t
    · rw [if_pos h, ih, List.filter_cons]
      simp [not_le.mpr h]
    · rw [if_neg h, ih, List.filter_cons]
      simp [not_lt.mp h, concatMap, wordText, foldl_append_acc, String.append_assoc]

/-- The filter, rewritten: it returns the concatenation of the word texts of
exactly the document-order words whose confidence is at least the threshold. -/
theorem filterText_eq (result : RecognitionResult) (t : ℚ) :
    filterTextByConfidence result t
      = concatMap wordText ((documentWords result).filter fun w => t ≤ w.confidence) := by
  unfold filterTextByConfidence documentWords
  simp only [words_foldl]
  simp only [foldl_append_acc, String.empty_append, List.filter_flatMap, concatMap_flatMap]

/-- C1: for every recognition result and threshold, `filterTextByConfidence`
returns exactly the concatenation, in document order, of the symbol texts of
the words whose confidence is ≥ the threshold, with no separator and nothing
else; in particular on three words of confidences 0.95, 0.40, 0.99 and
threshold 0.6 it returns the concatenation of words 1 and 3 only. -/
theorem filter_confidence_exact :
    (∀ (result : RecognitionResult) (t : ℚ),
      filterTextByConfidence result t
        = concatMap wordText ((documentWords result).filter fun w => t ≤ w.confidence)) ∧
    filterTextByConfidence scenarioA 0.6 = "Helloworld" := by
  constructor
  · exact filterText_eq
  · rw [filterText_eq]
    norm_num [scenarioA, documentWords, wordText, concatMap]
    decide

/-- C2 counterexample: refresh interval 1 is shorter than the cycle
duration 10, yet after due ticks at times 2 and 4 two pipeline cycles
(completing at 12 and 14) are running concurrently at time 4 — the claimed
at-most-one-in-flight bound fails on the code, which launches a goroutine
unconditionally at every due tick. -/
theorem update_concurrent_cycles_counterexample :
    (1 : ℤ) < 10 ∧
    1 < inFlight (updateTick 1 10 4 (updateTick 1 10 2 ⟨0, []⟩)) 4 := by
  decide

/-- C2 (amended): `App.Update` starts a new pipeline cycle at every due
tick regardless of the cycles still in flight, so whenever at least one
cycle is still running at a due tick, at least two cycles run concurrently
right after it. -/
theorem update_spawns_cycle_regardless_of_inflight
    (refreshRate d now : ℤ) (st : SchedState)
    (hdue : now > st.lastUpdate + refreshRate) (hd : 0 < d)
    (hrun : 1 ≤ inFlight st now) :
    2 ≤ inFlight (updateTick refreshRate d now st) now := by
  unfold updateTick
  rw [if_pos hdue]
  unfold inFlight at hrun ⊢
  have hlt : now < now + d := by omega
  simp only [List.filter_cons, decide_eq_true_eq, if_pos hlt, List.length_cons]
  omega

/-- Witness for the amended C2 at a concrete due tick with one cycle
still running. -/
theorem update_spawns_cycle_witness :
    2 ≤ inFlight (updateTick 1 10 4 ⟨2, [12]⟩) 4 :=
  update_spawns_cycle_regardless_of_inflight 1 10 4 ⟨2, [12]⟩ (by decide)
    (by decide) (by decide)

/-- C3 counterexample: a capture failure inside the cycle is passed to
`log.Fatal`, which terminates the whole process (render tick included),
instead of being logged and the cycle skipped (which would be
`.done ⟨"", ""⟩ 0` here). -/
theorem capture_failure_fatal_counterexample :
    runCycle ⟨"", ""⟩ false (.error "window not found") (.ok ()) (.ok "text")
        (fun _ => .ok "translated") = .fatal ∧
    CycleResult.fatal ≠ .done ⟨"", ""⟩ 0 := by
  decide

/-- C3 (amended): every error inside a pipeline cycle — capture failure,
recognition failure, or translation failure — is fatal: `log.Fatal`
terminates the process, render loop included; the cycle is not skipped and
retried. -/
theorem cycle_error_fatal (st : AppState) (e : String) (debug : Bool)
    (sav : Except String Unit) (extract : Except String String)
    (tr : String → Except String String) (text : String) :
    runCycle st debug (.error e) sav extract tr = .fatal ∧
    runCycle st debug (.ok ()) sav (.error e) tr = .fatal ∧
    (tr text = .error e → text ≠ st.lastText → text ≠ "" →
      runCycle st debug (.ok ()) sav (.ok text) tr = .fatal) := by
  refine ⟨rfl, ?_, ?_⟩
  · cases debug with
    | false => rfl
    | true =>
      cases sav with
      | error e' => rfl
      | ok u => rfl
  · intro htr hne he
    cases debug with
    | false => simp [runCycle, hne, he, htr]
    | true =>
      cases sav with
      | error e' => rfl
      | ok u => simp [runCycle, hne, he, htr]

/-- Witness for the amended C3: a failing translation call kills the
process. -/
theorem cycle_error_fatal_witness :
    runCycle ⟨"a", "b"⟩ false (.ok ()) (.ok ()) (.ok "x")
        (fun _ => .error "network") = .fatal :=
  (cycle_error_fatal ⟨"a", "b"⟩ "network" false (.ok ()) (.ok "x")
      (fun _ => .error "network") "x").2.2 rfl (by decide) (by decide)

/-- C9 counterexample: the pointer is held and stationary on screen at
(5, 7) (frame-to-frame delta (0, 0)) while the window sits at the origin;
the handler moves the window to (5, 7) — it snaps the window origin to the
cursor instead of translating it by the pointer delta. -/
theorem drag_stationary_counterexample :
    moveWindowHandler true (5, 7) (0, 0) = (5, 7) ∧
    ((5, 7) : ℤ × ℤ) ≠ (0, 0) := by
  decide

/-- C9 (amended): while the button is held the handler sets the window
position to the cursor's screen position (`window + (cursor - window)`);
consequently, from the second consecutive held tick on, the window moves
by exactly the pointer's frame-to-frame delta (and a pointer stationary in
screen coordinates leaves it unchanged), but on the first held tick the
window jumps to the cursor.  When the button is not held the position is
unchanged. -/
theorem drag_moves_window_to_cursor (c₁ c₂ w : ℤ × ℤ) :
    moveWindowHandler true c₁ w = c₁ ∧
    moveWindowHandler true c₂ (moveWindowHandler true c₁ w) = c₂ ∧
    (moveWindowHandler true c₂ (moveWindowHandler true c₁ w)).1
        - (moveWindowHandler true c₁ w).1 = c₂.1 - c₁.1 ∧
    (moveWindowHandler true c₂ (moveWindowHandler true c₁ w)).2
        - (moveWindowHandler true c₁ w).2 = c₂.2 - c₁.2 ∧
    moveWindowHandler false c₁ w = w := by
  simp only [moveWindowHandler, if_pos, if_neg, Prod.ext_iff, Prod.mk.injEq]
  refine ⟨⟨by omega, by omega⟩, ⟨by omega, by omega⟩, by omega, by omega, rfl, rfl⟩

/-- A successfully completed cycle on a non-empty text leaves that text
stored as `lastText` (either it already was the last text, or it was just
translated and stored). -/
theorem runCycle_done_lastText (st st' : AppState) (s : String) (n : ℕ)
    (sav : Except String Unit) (tr : String → Except String String)
    (hs : s ≠ "")
    (h : runCycle st false (.ok ()) sav (.ok s) tr = .done st' n) :
    st'.lastText = s := by
  by_cases hd : s = st.lastText
  · have e : runCycle st false (.ok ()) sav (.ok s) tr = .done st 0 := by
      simp [runCycle, hd]
    rw [e] at h
    cases h
    exact hd.symm
  · cases htr : tr s with
    | error e' =>
      have e : runCycle st false (.ok ()) sav (.ok s) tr = .fatal := by
        simp [runCycle, hd, hs, htr]
      rw [e] at h
      cases h
    | ok t =>
      have e : runCycle st false (.ok ()) sav (.ok s) tr = .done ⟨s, t⟩ 1 := by
        simp [runCycle, hd, hs, htr]
      rw [e] at h
      cases h
      rfl

/-- Any cycle that completes preserves the reachability invariant
"if `lastText` is empty then `subs` is empty" (true of the initial state
`⟨"", ""⟩`): `lastText` is only ever set to a non-empty text, and the
empty-text branch clears `subs`. -/
theorem runCycle_preserves_empty_inv (st st' : AppState) (debug : Bool)
    (cap sav : Except String Unit) (extract : Except String String)
    (tr : String → Except String String) (n : ℕ)
    (hinv : st.lastText = "" → st.subs = "")
    (h : runCycle st debug cap sav extract tr = .done st' n) :
    st'.lastText = "" → st'.subs = "" := by
  cases cap with
  | error e => simp [runCycle] at h
  | ok u =>
    cases hdbg : (if debug then sav else Except.ok ()) with
    | error e => simp [runCycle, hdbg] at h
    | ok v =>
      cases extract with
      | error e => simp [runCycle, hdbg] at h
      | ok text =>
        by_cases hd : text = st.lastText
        · have e : runCycle st debug (.ok u) sav (.ok text) tr = .done st 0 := by
            simp [runCycle, hdbg, hd]
          rw [e] at h
          cases h
          exact hinv
        · by_cases he : text = ""
          · subst he
            have e : runCycle st debug (.ok u) sav (.ok "") tr
                = .done { st with subs := "" } 0 := by
              simp [runCycle, hdbg, hd]
            rw [e] at h
            cases h
            intro _
            rfl
          · cases htr : tr text with
            | error e' =>
              have e : runCycle st debug (.ok u) sav (.ok text) tr = .fatal := by
                simp [runCycle, hdbg, hd, he, htr]
              rw [e] at h
              cases h
            | ok t =>
              have e : runCycle st debug (.ok u) sav (.ok text) tr
                  = .done ⟨text, t⟩ 1 := by
                simp [runCycle, hdbg, hd, he, htr]
              rw [e] at h
              cases h
              intro habs
              exact absurd habs he

/-- C4: two consecutive cycles extracting the same text invoke the
external translator at most once in total; the second cycle hits the
stored `lastText`, performs no translator call, and leaves the state
unchanged. -/
theorem duplicate_text_translates_once
    (st st₁ st₂ : AppState) (s : String) (n₁ n₂ : ℕ)
    (sav : Except String Unit) (tr : String → Except String String)
    (h₁ : runCycle st false (.ok ()) sav (.ok s) tr = .done st₁ n₁)
    (h₂ : runCycle st₁ false (.ok ()) sav (.ok s) tr = .done st₂ n₂) :
    n₁ + n₂ ≤ 1 ∧ n₂ = 0 ∧ st₂ = st₁ := by
  by_cases hd : s = st.lastText
  · have e₁ : runCycle st false (.ok ()) sav (.ok s) tr = .done st 0 := by
      simp [runCycle, hd]
    rw [e₁] at h₁
    cases h₁
    have e₂ : runCycle st false (.ok ()) sav (.ok s) tr = .done st 0 := by
      simp [runCycle, hd]
    rw [e₂] at h₂
    cases h₂
    exact ⟨by omega, rfl, rfl⟩
  · by_cases he : s = ""
    · subst he
      have e₁ : runCycle st false (.ok ()) sav (.ok "") tr
          = .done { st with subs := "" } 0 := by
        simp [runCycle, hd]
      rw [e₁] at h₁
      cases h₁
      have e₂ : runCycle { st with subs := "" } false (.ok ()) sav (.ok "") tr
          = .done { st with subs := "" } 0 := by
        simp [runCycle, hd]
      rw [e₂] at h₂
      cases h₂
      exact ⟨by omega, rfl, rfl⟩
    · cases htr : tr s with
      | error e' =>
        have e₁ : runCycle st false (.ok ()) sav (.ok s) tr = .fatal := by
          simp [runCycle, hd, he, htr]
        rw [e₁] at h₁
        cases h₁
      | ok t =>
        have e₁ : runCycle st false (.ok ()) sav (.ok s) tr = .done ⟨s, t⟩ 1 := by
          simp [runCycle, hd, he, htr]
        rw [e₁] at h₁
        cases h₁
        have e₂ : runCycle ⟨s, t⟩ false (.ok ()) sav (.ok s) tr = .done ⟨s, t⟩ 0 := by
          simp [runCycle]
        rw [e₂] at h₂
        cases h₂
        exact ⟨by omega, rfl, rfl⟩

/-- Witness for C4 (Scenario C): two consecutive cycles both extracting
`"こんにちは"` translate exactly once in total. -/
theorem duplicate_text_translates_once_witness :
    (1 : ℕ) + 0 ≤ 1 ∧ (0 : ℕ) = 0 ∧
      (⟨"こんにちは", "hello"⟩ : AppState) = ⟨"こんにちは", "hello"⟩ :=
  duplicate_text_translates_once ⟨"", ""⟩ ⟨"こんにちは", "hello"⟩
    ⟨"こんにちは", "hello"⟩ "こんにちは" 1 0 (.ok ())
    (fun _ => .ok "hello") (by decide) (by decide)

/-- C5 counterexample: `a = "aaaaaaaaab"` and `b = "aaaaaaaaac"` have
normalized similarity 9/10 ≥ the 0.9 threshold and differ; yet after a
cycle resolving `a`, the cycle extracting `b` invokes the external
translator (call count 1) — there is no fuzzy cache hit in the code. -/
theorem fuzzy_similarity_counterexample :
    similarity "aaaaaaaaab" "aaaaaaaaac" ≥ 9/10 ∧
    ("aaaaaaaaab" : String) ≠ "aaaaaaaaac" ∧
    runCycle ⟨"", ""⟩ false (.ok ()) (.ok ()) (.ok "aaaaaaaaab")
        (fun s => .ok (s ++ "!")) = .done ⟨"aaaaaaaaab", "aaaaaaaaab!"⟩ 1 ∧
    runCycle ⟨"aaaaaaaaab", "aaaaaaaaab!"⟩ false (.ok ()) (.ok ())
        (.ok "aaaaaaaaac") (fun s => .ok (s ++ "!"))
      = .done ⟨"aaaaaaaaac", "aaaaaaaaac!"⟩ 1 := by
  refine ⟨?_, by decide, by decide, by decide⟩
  have hlev : levenshtein Levenshtein.defaultCost
      "aaaaaaaaab".data "aaaaaaaaac".data = 1 := by decide
  have hla : ("aaaaaaaaab" : String).length = 10 := by decide
  have hlb : ("aaaaaaaaac" : String).length = 10 := by decide
  rw [similarity]
  simp only [hlev, hla, hlb]
  norm_num

/-- C5 (amended): the cache is exact-match only — after a cycle resolving
a non-empty text `a`, a cycle extracting any non-empty `b ≠ a` (however
similar to `a`) invokes the external translator. -/
theorem cache_exact_match_only
    (st st₁ : AppState) (a b tb : String) (n₁ : ℕ)
    (sav : Except String Unit) (tr : String → Except String String)
    (ha : a ≠ "") (hb : b ≠ "") (hab : b ≠ a)
    (h₁ : runCycle st false (.ok ()) sav (.ok a) tr = .done st₁ n₁)
    (htr : tr b = .ok tb) :
    runCycle st₁ false (.ok ()) sav (.ok b) tr = .done ⟨b, tb⟩ 1 := by
  have hlast : st₁.lastText = a := runCycle_done_lastText st st₁ a n₁ sav tr ha h₁
  simp [runCycle, hlast, hab, hb, htr]

/-- Witness for the amended C5 at concrete texts. -/
theorem cache_exact_match_only_witness :
    runCycle ⟨"aaaaaaaaab", "aaaaaaaaab!"⟩ false (.ok ()) (.ok ())
        (.ok "zz") (fun s => .ok (s ++ "!")) = .done ⟨"zz", "zz!"⟩ 1 :=
  cache_exact_match_only ⟨"", ""⟩ ⟨"aaaaaaaaab", "aaaaaaaaab!"⟩
    "aaaaaaaaab" "zz" "zz!" 1 (.ok ()) (fun s => .ok (s ++ "!"))
    (by decide) (by decide) (by decide) (by decide) rfl

/-- C6: a cycle whose extracted text is empty performs no translator call
and publishes an empty subtitle, for every state reachable from the
initial one (where an empty `lastText` implies an empty `subs`, see
`runCycle_preserves_empty_inv`); `lastText` is left unchanged. -/
theorem empty_text_clears_subs (st : AppState)
    (sav : Except String Unit) (tr : String → Except String String)
    (hinv : st.lastText = "" → st.subs = "") :
    runCycle st false (.ok ()) sav (.ok "") tr = .done ⟨st.lastText, ""⟩ 0 := by
  by_cases hd : "" = st.lastText
  · have hsubs : st.subs = "" := hinv hd.symm
    have hst : st = ⟨st.lastText, ""⟩ := by
      cases st
      simp_all
    have e : runCycle st false (.ok ()) sav (.ok "") tr = .done st 0 := by
      simp [runCycle, hd]
    rw [e, hst]
  · simp [runCycle, hd]

/-- Witness for C6: with a previous non-empty text on record, an empty
extraction clears the subtitle without any translator call. -/
theorem empty_text_clears_subs_witness :
    runCycle ⟨"こんにちは", "Hello"⟩ false (.ok ()) (.ok ()) (.ok "")
        (fun s => .ok s) = .done ⟨"こんにちは", ""⟩ 0 :=
  empty_text_clears_subs ⟨"こんにちは", "Hello"⟩ (.ok ()) (fun s => .ok s)
    (fun h => absurd h (by decide))

/-- C10: after a cycle cleared the subtitle on an empty extraction,
`lastText` keeps its previous non-empty value; a later cycle extracting
exactly that value returns early as a duplicate — the subtitle stays empty
and the translator is not invoked in either cycle. -/
theorem cleared_subs_duplicate_stays_cleared (st : AppState)
    (sav : Except String Unit) (tr : String → Except String String)
    (hne : st.lastText ≠ "") :
    runCycle st false (.ok ()) sav (.ok "") tr = .done ⟨st.lastText, ""⟩ 0 ∧
    runCycle ⟨st.lastText, ""⟩ false (.ok ()) sav (.ok st.lastText) tr
      = .done ⟨st.lastText, ""⟩ 0 := by
  constructor
  · have hd : ¬("" = st.lastText) := fun h => hne h.symm
    simp [runCycle, hd]
  · simp [runCycle]

/-- Witness for C10 at a concrete state. -/
theorem cleared_subs_duplicate_stays_cleared_witness :
    runCycle ⟨"こんにちは", "Hi"⟩ false (.ok ()) (.ok ()) (.ok "")
        (fun s => .ok s) = .done ⟨"こんにちは", ""⟩ 0 ∧
    runCycle ⟨"こんにちは", ""⟩ false (.ok ()) (.ok ()) (.ok "こんにちは")
        (fun s => .ok s) = .done ⟨"こんにちは", ""⟩ 0 :=
  cleared_subs_duplicate_stays_cleared ⟨"こんにちは", "Hi"⟩ (.ok ())
    (fun s => .ok s) (by decide)

/-- Invariant of the word-wrap fold: provided the measure ignores a
trailing space and every remaining word fits the width alone, the current
line and every flushed line measure at most the width throughout the
fold. -/
theorem wrap_fold_inv (measure : String → ℕ) (width : ℕ)
    (hspace : ∀ s, measure (s ++ " ") = measure s)
    (words : List String) :
    ∀ (line : String) (lines : List String),
      (∀ w ∈ words, measure w ≤ width) →
      measure line ≤ width →
      (∀ l ∈ lines, measure l ≤ width) →
      measure (words.foldl (wrapStep measure width) (line, lines)).1 ≤ width ∧
      ∀ l ∈ (words.foldl (wrapStep measure width) (line, lines)).2,
        measure l ≤ width := by
  induction words with
  | nil =>
    intro line lines _ h1 h2
    exact ⟨h1, h2⟩
  | cons w ws ih =>
    intro line lines hw h1 h2
    rw [List.foldl_cons]
    have hwords : ∀ x ∈ ws, measure x ≤ width :=
      fun x hx => hw x (List.mem_cons_of_mem w hx)
    by_cases hov : measure (line ++ w) > width
    · rw [wrapStep, if_pos hov]
      refine ih (w ++ " ") (lines ++ [line]) hwords ?_ ?_
      · rw [hspace]
        exact hw w (List.mem_cons_self w ws)
      · intro l hl
        rcases List.mem_append.mp hl with h | h
        · exact h2 l h
        · rw [List.mem_singleton] at h
          subst h
          exact h1
    · rw [wrapStep, if_neg hov]
      refine ih ((line ++ w) ++ " ") lines hwords ?_ h2
      rw [hspace]
      exact not_lt.mp hov

/-- C7: for every input text and available width, the greedy word-wrap of
the `App.Draw` variant never produces a line measuring wider than the
available width, provided the width measure assigns 0 to the empty string,
ignores a trailing space (as `text.BoundString` does — a trailing space
draws no glyph), and no single word of the text alone measures wider than
the width. -/
theorem wrap_lines_fit_width (measure : String → ℕ) (width : ℕ) (text : String)
    (hempty : measure "" = 0)
    (hspace : ∀ s, measure (s ++ " ") = measure s)
    (hword : ∀ w ∈ fields text, measure w ≤ width) :
    ∀ l ∈ wrapLines measure width (fields text), measure l ≤ width := by
  intro l hl
  rw [wrapLines] at hl
  have h := wrap_fold_inv measure width hspace (fields text) "" [] hword
    (by rw [hempty]; exact Nat.zero_le width) (by intro x hx; cases hx)
  rcases List.mem_append.mp hl with h' | h'
  · exact h.2 l h'
  · rw [List.mem_singleton] at h'
    subst h'
    exact h.1

/-- Witness for C7: with the non-space-character measure and width 3, the
text `"ab cd ef"` wraps into lines (`"ab "` among them) that all fit. -/
theorem wrap_lines_fit_width_witness : measureNoSpace "ab " ≤ 3 :=
  wrap_lines_fit_width measureNoSpace 3 "ab cd ef" (by decide)
    (fun s => by
      rw [measureNoSpace, measureNoSpace, String.data_append]
      rw [show (" " : String).data = [' '] from rfl, List.filter_append]
      simp)
    (by decide) "ab " (by decide)

/-- C8 counterexample: on a single word of full confidence 1 and the
out-of-range threshold 2, the filter neither fails fast nor clamps: it
proceeds with the raw comparison and excludes the word (result `""`),
whereas clamping the threshold to 1 would have included it (result
`"a"`). -/
theorem threshold_out_of_range_counterexample :
    filterTextByConfidence oneWordResult 2 = "" ∧
    filterTextByConfidence oneWordResult 1 = "a" := by
  decide

/-- C8 (amended): the filter performs no validation of the threshold: a
threshold above 1 is used as an ordinary comparison value and (since every
confidence is at most 1) excludes every word, returning the empty string
rather than failing fast or clamping. -/
theorem threshold_above_one_filters_all (result : RecognitionResult) (t : ℚ)
    (ht : 1 < t) (hconf : ∀ w ∈ documentWords result, w.confidence ≤ 1) :
    filterTextByConfidence result t = "" := by
  rw [filterText_eq]
  have hnil : (documentWords result).filter (fun w => t ≤ w.confidence) = [] := by
    rw [List.filter_eq_nil_iff]
    intro w hw
    simp only [decide_eq_true_eq]
    exact not_le.mpr (lt_of_le_of_lt (hconf w hw) ht)
  rw [hnil]
  rfl

/-- Witness for the amended C8 at the concrete out-of-range threshold 2. -/
theorem threshold_above_one_filters_all_witness :
    filterTextByConfidence oneWordResult 2 = "" :=
  threshold_above_one_filters_all oneWordResult 2 (by decide) (by decide)

end Interpreter
